import Mathlib

/-
  Verification development for the md2pdf repository (Markdown → PDF converter).

  The Python source is shallowly embedded: strings are modelled as `List Char`
  (exposed entry points take `String`), Python `set` as `Finset (List Char)`,
  exceptions as `Except`, and the filesystem / the external markdown and PDF
  rendering libraries as function parameters.  Regex character classes are
  modelled over the ASCII range (`\w` as `[A-Za-z0-9_]`); every anchor id the
  program itself produces lies in this range.
-/

namespace MD2PDF

/-- ASCII model of the regex class `\w` (`[A-Za-z0-9_]`). -/
def wordChar (c : Char) : Bool := c.isAlpha || c.isDigit || c = '_'

/-- Whitespace stripped by Python `str.strip()` (ASCII subset). -/
def pySpace (c : Char) : Bool :=
  c = ' ' || c = '\t' || c = '\n' || c = '\r' || c = '\x0b' || c = '\x0c'

/-- `str.strip()` : drop leading and trailing whitespace. -/
def pyStrip (l : List Char) : List Char :=
  ((l.dropWhile pySpace).reverse.dropWhile pySpace).reverse

/-- Does `pat` occur at the very start of `s`? -/
def startsWithL : List Char → List Char → Bool
  | [], _ => true
  | _ :: _, [] => false
  | p :: ps, c :: cs => p = c && startsWithL ps cs

/-- Index of the first occurrence of `pat` in `s` (regex/`str.find` semantics). -/
def findSub (pat : List Char) : List Char → Option Nat
  | [] => if startsWithL pat [] then some 0 else none
  | s@(_ :: cs) => if startsWithL pat s then some 0 else (findSub pat cs).map (· + 1)

/-- Python `pat in s` substring test. -/
def containsSub (pat s : List Char) : Bool := (findSub pat s).isSome

/-- Python `s.split(pat, 1)`: split at the first occurrence of `pat`. -/
def splitFirst (pat s : List Char) : Option (List Char × List Char) :=
  match findSub pat s with
  | some i => some (s.take i, s.drop (i + pat.length))
  | none => none

/-- Characters kept by `re.sub(r'[^a-z0-9-]', '', base_id)` in
`MarkdownConverter.generate_anchor_id`. -/
def keptChar (c : Char) : Bool := c.isLower || c.isDigit || c = '-'

/-- `re.sub(r'-+', '-', base_id)`: collapse runs of hyphens to one. -/
def collapseHyphens : List Char → List Char
  | [] => []
  | [c] => [c]
  | c :: d :: rest =>
    if c = '-' && d = '-' then collapseHyphens (d :: rest)
    else c :: collapseHyphens (d :: rest)

/-- Drop a trailing run of hyphens (right half of `base_id.strip('-')`). -/
def dropTrailingHyphens : List Char → List Char
  | [] => []
  | c :: rest =>
    let t := dropTrailingHyphens rest
    if t.isEmpty && c = '-' then [] else c :: t

/-- `base_id.strip('-')`: trim leading and trailing hyphens. -/
def stripHyphens (l : List Char) : List Char :=
  dropTrailingHyphens (l.dropWhile (fun c => c = '-'))

/-- The base-id computation of `MarkdownConverter.generate_anchor_id`
(converter.py lines 386-403): lowercase, spaces to hyphens, drop characters
outside `[a-z0-9-]`, collapse hyphen runs, trim hyphens, fallback `heading`.
`Char.toLower` models `str.lower` on the ASCII range. -/
def sanitizeBase (text : List Char) : List Char :=
  let lowered := text.map Char.toLower
  let spaced := lowered.map (fun c => if c = ' ' then '-' else c)
  let kept := spaced.filter keptChar
  let trimmed := stripHyphens (collapseHyphens kept)
  if trimmed.isEmpty then "heading".data else trimmed

/-- Decimal digit character for `n % 10` (models Python `str(int)` digits). -/
def digitChar (n : Nat) : Char :=
  match n % 10 with
  | 0 => '0' | 1 => '1' | 2 => '2' | 3 => '3' | 4 => '4'
  | 5 => '5' | 6 => '6' | 7 => '7' | 8 => '8' | _ => '9'

/-- Decimal digit list of `n`, most significant first (`fuel`-bounded). -/
def natDigits : Nat → Nat → List Char
  | 0, _ => []
  | fuel + 1, n =>
    if n < 10 then [digitChar n] else natDigits fuel (n / 10) ++ [digitChar (n % 10)]

/-- Decimal rendering of a natural number, models Python `str(counter)`. -/
def natRepr (n : Nat) : List Char := natDigits (n + 1) n

/-- Reads a digit list back as a number (verification helper for `natRepr`). -/
def parseDec (l : List Char) : Nat := l.foldl (fun a c => 10 * a + (c.toNat - 48)) 0

/-- The candidate `f"{base_id}-{counter}"` of `generate_anchor_id`. -/
def suffixName (base : List Char) (k : Nat) : List Char := base ++ '-' :: natRepr k

/-- The duplicate-resolution loop `while f"{base_id}-{counter}" in seen_ids:
counter += 1` of `generate_anchor_id`.  The `erase` only serves termination:
suffix names for distinct counters are distinct strings (proved below), so the
erased element is never queried again and the function computes exactly the
first counter `≥ k` whose suffix name is not in `seen`. -/
def findCtr (base : List Char) (seen : Finset (List Char)) (k : Nat) : Nat :=
  if h : suffixName base k ∈ seen then
    findCtr base (seen.erase (suffixName base k)) (k + 1)
  else k
termination_by seen.card
decreasing_by exact Finset.card_erase_lt_of_mem h

/-- `MarkdownConverter.generate_anchor_id` (converter.py lines 376-417).
Returns the allocated id together with the updated `seen_ids` set (the Python
function mutates `seen_ids` in place). -/
def generate_anchor_id (text : List Char) (seen : Finset (List Char)) :
    List Char × Finset (List Char) :=
  let base := sanitizeBase text
  if base ∈ seen then
    let uid := suffixName base (findCtr base seen 2)
    (uid, insert uid seen)
  else
    (base, insert base seen)

/-- One match of the regex `<(h[12])\b([^>]*)>(.*?)</\1>` of
`MarkdownConverter.extract_headers`: the digit of group 1, the attribute text
(group 2), the inner content (group 3) and the text after the match. -/
structure HeaderMatch where
  tagDigit : Char
  attrs : List Char
  content : List Char
  rest : List Char
deriving DecidableEq

/-- Does the closing tag `</\1>` (case-insensitive backreference, digit `d`)
start here? -/
def isCloseAt (d : Char) : List Char → Bool
  | '<' :: '/' :: h :: d' :: '>' :: _ => (h = 'h' || h = 'H') && d' = d
  | _ => false

/-- Index of the first position where the closing tag starts (the lazy `(.*?)`
stops at the earliest closing tag). -/
def findCloseIdx (d : Char) : List Char → Option Nat
  | [] => none
  | s@(_ :: rest) => if isCloseAt d s then some 0 else (findCloseIdx d rest).map (· + 1)

/-- Try to match `<(h[12])\b([^>]*)>(.*?)</\1>` (flags `IGNORECASE | DOTALL`)
at the start of `s`.  The greedy `[^>]*` runs to the first `>`; `\b` requires
the character after the digit not to be a word character; the lazy content
stops at the earliest case-insensitive closing tag with the same digit. -/
def matchHeaderAt (s : List Char) : Option HeaderMatch :=
  match s with
  | '<' :: c1 :: c2 :: rest =>
    if (c1 = 'h' || c1 = 'H') && (c2 = '1' || c2 = '2') then
      match rest with
      | [] => none
      | c3 :: _ =>
        if wordChar c3 then none
        else
          match findSub ['>'] rest with
          | none => none
          | some i =>
            let attrs := rest.take i
            let afterGt := rest.drop (i + 1)
            match findCloseIdx c2 afterGt with
            | none => none
            | some j => some ⟨c2, attrs, afterGt.take j, afterGt.drop (j + 5)⟩
    else none
  | _ => none

/-- `int(tag[1])` for the matched tag. -/
def headerLevel (c : Char) : Nat := if c = '1' then 1 else 2

/-- `re.sub(r'<[^>]+>', '', content)`: remove every `<...>` run holding at
least one non-`>` character (fuel-bounded scan; `l.length + 1` fuel always
suffices since every step consumes at least one character). -/
def stripTagsAux : Nat → List Char → List Char
  | 0, l => l
  | _ + 1, [] => []
  | f + 1, c :: rest =>
    if c = '<' then
      match findSub ['>'] rest with
      | some i => if 1 ≤ i then stripTagsAux f (rest.drop (i + 1)) else c :: stripTagsAux f rest
      | none => c :: stripTagsAux f rest
    else c :: stripTagsAux f rest

def stripTags (l : List Char) : List Char := stripTagsAux (l.length + 1) l

/-- Modelled subset of Python `html.unescape`: the five basic named character
references (`amp`, `lt`, `gt`, `quot`, `apos`) and `&#39;`.  Python decodes the
full HTML5 entity table; no claim in this development depends on which entities
are decoded, only on the surrounding pipeline. -/
def unescapeAux : Nat → List Char → List Char
  | 0, l => l
  | _ + 1, [] => []
  | f + 1, c :: rest =>
    if c = '&' then
      if startsWithL "amp;".data rest then '&' :: unescapeAux f (rest.drop 4)
      else if startsWithL "lt;".data rest then '<' :: unescapeAux f (rest.drop 3)
      else if startsWithL "gt;".data rest then '>' :: unescapeAux f (rest.drop 3)
      else if startsWithL "quot;".data rest then '"' :: unescapeAux f (rest.drop 5)
      else if startsWithL "apos;".data rest then Char.ofNat 39 :: unescapeAux f (rest.drop 5)
      else if startsWithL "#39;".data rest then Char.ofNat 39 :: unescapeAux f (rest.drop 4)
      else c :: unescapeAux f rest
    else c :: unescapeAux f rest

def htmlUnescape (l : List Char) : List Char := unescapeAux (l.length + 1) l

/-- `re.search(r'\bid="([^"]*)"', attrs)`: first position, preceded by a
non-word character (or the start), where `id="` begins and a closing quote
follows; captures the text between the quotes. -/
def extractIdAux : Nat → Bool → List Char → Option (List Char)
  | 0, _, _ => none
  | _ + 1, _, [] => none
  | f + 1, prevWord, c :: rest =>
    if !prevWord && startsWithL "id=\"".data (c :: rest) then
      match findSub ['"'] (rest.drop 3) with
      | some i => some ((rest.drop 3).take i)
      | none => extractIdAux f (wordChar c) rest
    else extractIdAux f (wordChar c) rest

def extractIdAttr (attrs : List Char) : Option (List Char) :=
  extractIdAux (attrs.length + 1) false attrs

/-- `re.match(r'^[a-zA-Z][\w\-]*$', anchor_id)` of `extract_headers`
(ASCII-modelled `\w`). -/
def matchesIdPattern : List Char → Bool
  | [] => false
  | c :: rest => c.isAlpha && rest.all (fun d => wordChar d || d = '-')

/-- A heading record `{'text': ..., 'level': ..., 'anchor_id': ...}`. -/
structure HeaderRec where
  text : List Char
  level : Nat
  anchor_id : List Char
deriving DecidableEq

/-- `anchor_id = id_match.group(1).strip() if id_match else ''`. -/
def trimmedId (attrs : List Char) : List Char :=
  match extractIdAttr attrs with
  | some v => pyStrip v
  | none => []

/-- Lines 455-459 of converter.py: accept a present, well-formed explicit id
verbatim and register it in `seen_ids`; otherwise generate a fresh id from the
heading text. -/
def anchorDecision (attrs text : List Char) (seen : Finset (List Char)) :
    List Char × Finset (List Char) :=
  let anchor0 := trimmedId attrs
  if !anchor0.isEmpty && matchesIdPattern anchor0 then (anchor0, insert anchor0 seen)
  else generate_anchor_id text seen

/-- The `re.finditer` loop of `extract_headers`: scan left to right, consume
each non-overlapping match, skip headings whose de-tagged text is empty, and
thread the `seen_ids` set through.  Fuel-bounded; every step consumes at least
one character, so `length + 1` fuel always suffices. -/
def extractLoop : Nat → List Char → Finset (List Char) → List HeaderRec
  | 0, _, _ => []
  | _ + 1, [], _ => []
  | f + 1, s@(_ :: restChars), seen =>
    match matchHeaderAt s with
    | none => extractLoop f restChars seen
    | some m =>
      let text := htmlUnescape (pyStrip (stripTags m.content))
      if text.isEmpty then extractLoop f m.rest seen
      else
        let p := anchorDecision m.attrs text seen
        ⟨text, headerLevel m.tagDigit, p.1⟩ :: extractLoop f m.rest p.2

/-- `MarkdownConverter.extract_headers` (converter.py lines 419-467). -/
def extract_headers (html_content : String) : List HeaderRec :=
  extractLoop (html_content.data.length + 1) html_content.data ∅

/-- Verification copy of `extractLoop` that additionally records, per heading,
whether the explicit-id branch was taken (`true`) or the id was freshly
generated (`false`).  `extractLoop` is its first projection (proved below). -/
def extractLoopA : Nat → List Char → Finset (List Char) → List (HeaderRec × Bool)
  | 0, _, _ => []
  | _ + 1, [], _ => []
  | f + 1, s@(_ :: restChars), seen =>
    match matchHeaderAt s with
    | none => extractLoopA f restChars seen
    | some m =>
      let text := htmlUnescape (pyStrip (stripTags m.content))
      if text.isEmpty then extractLoopA f m.rest seen
      else
        let a0 := trimmedId m.attrs
        let p := anchorDecision m.attrs text seen
        (⟨text, headerLevel m.tagDigit, p.1⟩, !a0.isEmpty && matchesIdPattern a0) ::
          extractLoopA f m.rest p.2

def extractHeadersA (html_content : String) : List (HeaderRec × Bool) :=
  extractLoopA (html_content.data.length + 1) html_content.data ∅

/-- `html.escape(s)` (with the default `quote=True`), applied characterwise:
the sequential replacements of the Python implementation never rewrite the
characters introduced by an earlier replacement. -/
def htmlEscapeChar (c : Char) : List Char :=
  if c = '&' then "&amp;".data
  else if c = '<' then "&lt;".data
  else if c = '>' then "&gt;".data
  else if c = '"' then "&quot;".data
  else if c = Char.ofNat 39 then "&#x27;".data
  else [c]

def htmlEscape (l : List Char) : List Char := l.flatMap htmlEscapeChar

/-- `MarkdownConverter.generate_toc_html` (converter.py lines 469-498). -/
def generate_toc_html (headers : List HeaderRec) : List Char :=
  if headers.isEmpty then []
  else
    "<div class=\"toc\">\n    <h1>Table of Contents</h1>\n    <ul>\n".data ++
    (headers.flatMap (fun h =>
      "        <li class=\"toc-h".data ++ natRepr h.level ++ "\">\n            <a href=\"#".data ++
      h.anchor_id ++ "\">".data ++ htmlEscape h.text ++ "</a>\n        </li>\n".data)) ++
    "    </ul>\n</div>\n".data

/-- The `Config` dataclass (config.py), restricted to value fields. -/
structure Config where
  page_size : String := "A4"
  margin_top : String := "2cm"
  margin_bottom : String := "2cm"
  margin_left : String := "2cm"
  margin_right : String := "2cm"
  font_family : String := "Arial, sans-serif"
  font_size : String := "11pt"
  code_font : String := "Courier, monospace"
  default_output_dir : String := "output"
  preserve_structure : Bool := true
  enable_page_numbers : Bool := false
  page_number_position : String := "center"
  page_number_format : String := "Page {page} of {pages}"
deriving DecidableEq

/-- `_escape_css_string` (styles.py lines 6-15), applied characterwise: the
three sequential `replace` calls never rewrite characters introduced by an
earlier replacement. -/
def cssEscapeChar (c : Char) : List Char :=
  if c = '\\' then ['\\', '\\']
  else if c = '"' then ['\\', '"']
  else if c = '\n' then ['\\', 'n']
  else [c]

def escapeCssString (l : List Char) : List Char := l.flatMap cssEscapeChar

/-- `f'"{_escape_css_string(before)}"'`. -/
def quotedLiteral (l : List Char) : List Char := '"' :: (escapeCssString l ++ ['"'])

def pagePat : List Char := "{page}".data
def pagesPat : List Char := "{pages}".data

/-- The `while remaining:` loop of `get_page_number_css` (styles.py lines
49-66): if `"{page}" in remaining` split at its first occurrence, else if
`"{pages}" in remaining` split at its first occurrence, else emit the whole
remainder as a quoted literal.  Fuel-bounded; every placeholder step consumes
at least six characters. -/
def contentPartsAux : Nat → List Char → List (List Char)
  | 0, _ => []
  | f + 1, remaining =>
    if remaining.isEmpty then []
    else
      match splitFirst pagePat remaining with
      | some (before, after) =>
        (if before.isEmpty then [] else [quotedLiteral before]) ++
          ("counter(page)".data :: contentPartsAux f after)
      | none =>
        match splitFirst pagesPat remaining with
        | some (before, after) =>
          (if before.isEmpty then [] else [quotedLiteral before]) ++
            ("counter(pages)".data :: contentPartsAux f after)
        | none => [quotedLiteral remaining]

def contentParts (fmt : List Char) : List (List Char) :=
  contentPartsAux (fmt.length + 1) fmt

/-- `content_value = " ".join(content_parts)`. -/
def joinParts (parts : List (List Char)) : List Char :=
  (parts.intersperse " ".data).flatten

/-- The `position_map` dict of `get_page_number_css`. -/
def positionMap (pos : String) : Option String :=
  if pos = "left" then some "@bottom-left"
  else if pos = "center" then some "@bottom-center"
  else if pos = "right" then some "@bottom-right"
  else none

/-- The f-string returned by `get_page_number_css` (styles.py lines 70-77). -/
def cssBlock (box : String) (contentValue : List Char) : String :=
  String.mk ("\n    ".data ++ box.data ++ " \x7b\n        content: ".data ++
    contentValue ++
    ";\n        font-size: 9pt;\n        color: #666;\n        font-family: Arial, sans-serif;\n    \x7d\n    ".data)

/-- `get_page_number_css` (styles.py lines 18-77).  The `ValueError` raised on
an unknown position is modelled as `Except.error`. -/
def get_page_number_css (config : Config) : Except String String :=
  if !config.enable_page_numbers then .ok ""
  else
    match positionMap config.page_number_position with
    | none =>
      .error ("Invalid page_number_position: " ++ config.page_number_position ++
        ". Must be one of: left, center, right")
    | some box =>
      .ok (cssBlock box (joinParts (contentParts config.page_number_format.data)))

/-- Scanner following the specification's words for `pageNumberCss`: scan left
to right for the placeholders, and at each scan position the first (leftmost)
occurrence of either placeholder wins.  Used to compare the specified scan with
the implemented one. -/
def specLeftmostAux : Nat → List Char → List (List Char)
  | 0, _ => []
  | f + 1, remaining =>
    if remaining.isEmpty then []
    else
      match findSub pagePat remaining, findSub pagesPat remaining with
      | some i, some i' =>
        if i ≤ i' then
          (if (remaining.take i).isEmpty then [] else [quotedLiteral (remaining.take i)]) ++
            ("counter(page)".data :: specLeftmostAux f (remaining.drop (i + 6)))
        else
          (if (remaining.take i').isEmpty then [] else [quotedLiteral (remaining.take i')]) ++
            ("counter(pages)".data :: specLeftmostAux f (remaining.drop (i' + 7)))
      | some i, none =>
        (if (remaining.take i).isEmpty then [] else [quotedLiteral (remaining.take i)]) ++
          ("counter(page)".data :: specLeftmostAux f (remaining.drop (i + 6)))
      | none, some i' =>
        (if (remaining.take i').isEmpty then [] else [quotedLiteral (remaining.take i')]) ++
          ("counter(pages)".data :: specLeftmostAux f (remaining.drop (i' + 7)))
      | none, none => [quotedLiteral remaining]

def specLeftmostParts (fmt : List Char) : List (List Char) :=
  specLeftmostAux (fmt.length + 1) fmt

/-- Scanner written from the amended claim's words: if `{page}` occurs
anywhere in the remaining text it wins and the text is split at its first
occurrence (a `{pages}` occurring earlier stays inside the emitted literal);
only when `{page}` is absent is the text split at the first `{pages}`;
otherwise the whole remainder is one quoted literal. -/
def specPriorityAux : Nat → List Char → List (List Char)
  | 0, _ => []
  | f + 1, remaining =>
    if remaining.isEmpty then []
    else if containsSub pagePat remaining then
      match splitFirst pagePat remaining with
      | some (before, after) =>
        (if before.isEmpty then [] else [quotedLiteral before]) ++
          ("counter(page)".data :: specPriorityAux f after)
      | none => [quotedLiteral remaining]
    else if containsSub pagesPat remaining then
      match splitFirst pagesPat remaining with
      | some (before, after) =>
        (if before.isEmpty then [] else [quotedLiteral before]) ++
          ("counter(pages)".data :: specPriorityAux f after)
      | none => [quotedLiteral remaining]
    else [quotedLiteral remaining]

def specPriorityParts (fmt : List Char) : List (List Char) :=
  specPriorityAux (fmt.length + 1) fmt

/-- Error taxonomy of converter.py: `InvalidMarkdownError` and
`ConversionError`. -/
inductive MDError where
  | invalidMarkdown (msg : String)
  | conversionError (msg : String)
deriving DecidableEq

/-- `str(e)` for a captured error. -/
def errMessage : MDError → String
  | .invalidMarkdown m => m
  | .conversionError m => m

/-- The page-break separator joined between merged fragments
(converter.py line 227). -/
def pageBreakSep : String := "<div style=\"page-break-before: always;\"></div>"

/-- Reading and converting one source file inside `convert_merge`
(converter.py lines 210-224).  `fs` models the filesystem (`none` =
`FileNotFoundError`); `render` models the external markdown library together
with the image extension, whose failures surface as `MDError`. -/
def readRender (render : String → Except MDError String)
    (fs : String → Option String) (p : String) : Except MDError String :=
  match fs p with
  | some content => render content
  | none => .error (.invalidMarkdown ("File not found: " ++ p))

/-- The combined-HTML computation of `MarkdownConverter.convert_merge`
(converter.py lines 181-229): reject an empty source list, convert each file
in input order, and join the fragments with a forced page break between
consecutive fragments.  The later PDF serialization is external I/O and is not
modelled; the combined HTML is the observable. -/
def convert_merge (render : String → Except MDError String)
    (fs : String → Option String) (input_paths : List String) :
    Except MDError String :=
  if input_paths.isEmpty then
    .error (.invalidMarkdown "No markdown files provided for merging")
  else do
    let bodies ← input_paths.mapM (readRender render fs)
    return String.intercalate pageBreakSep bodies

/-- `MarkdownConverter.convert_file` (converter.py lines 65-179): read the
source (`InvalidMarkdown` when missing), run the conversion pipeline, re-raise
`InvalidMarkdownError` unchanged (lines 175-177) and wrap any other failure
into a `ConversionError` (lines 178-179).  The produced HTML body is the
observable; PDF serialization is external I/O. -/
def convert_file (render : String → Except MDError String)
    (fs : String → Option String) (input_path : String) :
    Except MDError String :=
  match fs input_path with
  | none => .error (.invalidMarkdown ("File not found: " ++ input_path))
  | some content =>
    match render content with
    | .ok body => .ok body
    | .error (.invalidMarkdown m) => .error (.invalidMarkdown m)
    | .error (.conversionError m) =>
      .error (.conversionError ("Error converting " ++ input_path ++ " to PDF: " ++ m))

/-- A purely lexical path: absolute flag plus components.  Mirrors Python
`pathlib.PurePath`, which drops empty and `.` components at parse time. -/
structure PurePath where
  absolute : Bool
  parts : List String
deriving DecidableEq

def parsePath (s : String) : PurePath :=
  ⟨s.startsWith "/", (s.splitOn "/").filter (fun c => c ≠ "" && c ≠ ".")⟩

/-- `Path.parent`: drop the final component. -/
def pathParent (p : PurePath) : PurePath := ⟨p.absolute, p.parts.dropLast⟩

/-- The `/` join operator of `pathlib`. -/
def pathJoin (a b : PurePath) : PurePath :=
  if b.absolute then b else ⟨a.absolute, a.parts ++ b.parts⟩

/-- Lexical `..` collapsing performed by `Path.resolve` (symlinks are not
modelled; `..` at the root stays at the root). -/
def collapseDots (l : List String) : List String :=
  l.foldl (fun acc c => if c = ".." then acc.dropLast else acc ++ [c]) []

/-- `Path.resolve()`: anchor a relative path at the process working directory
`cwd`, make it absolute and collapse `..` components. -/
def pathResolve (cwd : PurePath) (p : PurePath) : PurePath :=
  if p.absolute then ⟨true, collapseDots p.parts⟩
  else ⟨true, collapseDots (cwd.parts ++ p.parts)⟩

def pathToString (p : PurePath) : String :=
  if p.absolute then "/" ++ String.intercalate "/" p.parts
  else if p.parts.isEmpty then "." else String.intercalate "/" p.parts

/-- The checked image target of `ImagePathProcessor._resolve_image_path`
(image_extension.py lines 59-64): an absolute reference is used as-is, a
relative one is joined to the source file's directory and resolved. -/
def imgTarget (cwd : PurePath) (source_file : PurePath) (ref : String) : PurePath :=
  if (parsePath ref).absolute then parsePath ref
  else pathResolve cwd (pathJoin (pathParent source_file) (parsePath ref))

/-- `ImagePathProcessor._resolve_image_path` (image_extension.py lines 44-73).
`ex` models `Path.exists`; `cwd` is the process working directory consulted by
`Path.resolve` only when the joined path is relative. -/
def resolve_image_path (cwd : PurePath) (ex : PurePath → Bool)
    (source_file : PurePath) (ref : String) : Except MDError PurePath :=
  let img_path := imgTarget cwd source_file ref
  if ex img_path then .ok img_path
  else
    .error (.invalidMarkdown ("Image not found: " ++ ref ++ " (referenced in " ++
      pathToString source_file ++ ")"))

/-- Final slash-separated component of a path string. -/
def lastComponent (p : String) : String := ((p.splitOn "/").getLast?).getD ""

/-- `find_markdown_files` (utils.py lines 6-15): `sorted(directory.rglob("*.md"))`.
`listing` models the recursive directory enumeration; the glob keeps entries
whose final name component ends in `.md`, and the result is sorted
lexicographically. -/
def find_markdown_files (listing : List String) : List String :=
  (listing.filter (fun p => (lastComponent p).endsWith ".md")).mergeSort
    (fun a b => decide (a ≤ b))

/-- `Path.stem`: the final component without its suffix; a suffix exists only
when the last dot sits strictly inside the name. -/
def pathStem (p : String) : String :=
  let name := lastComponent p
  let cs := name.data
  match (cs.reverse.findIdx? (fun c => c = '.')).map (fun r => cs.length - 1 - r) with
  | some i => if 0 < i && i < cs.length - 1 then String.mk (cs.take i) else name
  | none => name

/-- `input_path.relative_to(input_dir)` components.  The `ValueError` branch
(input not under the base) is unreachable from `convert_directory`, whose
files are discovered under `input_dir`; it is modelled as the identity. -/
def relativeParts (base p : String) : List String :=
  let bp := (parsePath base).parts
  let pp := (parsePath p).parts
  if pp.take bp.length = bp then pp.drop bp.length else pp

/-- `get_output_path` (utils.py lines 18-44). -/
def get_output_path (input_path input_dir output_dir : String)
    (preserve_structure : Bool) : String :=
  let pdf_name := pathStem input_path ++ ".pdf"
  if preserve_structure then
    String.intercalate "/" (output_dir :: ((relativeParts input_dir input_path).dropLast ++ [pdf_name]))
  else
    String.intercalate "/" [output_dir, pdf_name]

/-- One entry of the result list of `convert_directory`. -/
structure ConvResult where
  input : String
  output : String
  success : Bool
  error : Option String
deriving DecidableEq

/-- The loop body of `convert_directory` for one discovered file: build the
result record, try the conversion, capture success or the error message. -/
def convertEntry (render : String → Except MDError String)
    (fs : String → Option String) (input_dir output_dir : String)
    (preserve_structure : Bool) (md_file : String) : ConvResult :=
  let output_path := get_output_path md_file input_dir output_dir preserve_structure
  match convert_file render fs md_file with
  | .ok _ => ⟨md_file, output_path, true, none⟩
  | .error e => ⟨md_file, output_path, false, some (errMessage e)⟩

/-- `MarkdownConverter.convert_directory` (converter.py lines 320-374): one
result per discovered file; a failing conversion is captured into its record
and the loop continues with the remaining files. -/
def convert_directory (render : String → Except MDError String)
    (fs : String → Option String) (input_dir output_dir : String)
    (preserve_structure : Bool) (listing : List String) : List ConvResult :=
  (find_markdown_files listing).map
    (convertEntry render fs input_dir output_dir preserve_structure)

/-- Characters that keep a TOC `href="#..."` attribute intact: no whitespace
and none of `<`, `>`, `&`, the double quote or the single quote. -/
def tocSafeChar (c : Char) : Bool :=
  !pySpace c && c ≠ '<' && c ≠ '>' && c ≠ '&' && c ≠ '"' && c ≠ Char.ofNat 39

/-- The anchor-id shape produced by `generate_anchor_id`: an ASCII letter or
digit followed by word characters or hyphens (the amended form of the spec's
`^[a-zA-Z][\w-]*$`, which also allows a leading digit). -/
def matchesAnchorPattern : List Char → Bool
  | [] => false
  | c :: rest => (c.isAlpha || c.isDigit) && rest.all (fun d => wordChar d || d = '-')

/-! ### Properties of the decimal rendering and the duplicate counter -/

theorem digitChar_toNat (n : Nat) : (digitChar n).toNat = 48 + n % 10 := by
  have h10 : n % 10 < 10 := Nat.mod_lt _ (by omega)
  have h : n % 10 = 0 ∨ n % 10 = 1 ∨ n % 10 = 2 ∨ n % 10 = 3 ∨ n % 10 = 4 ∨
      n % 10 = 5 ∨ n % 10 = 6 ∨ n % 10 = 7 ∨ n % 10 = 8 ∨ n % 10 = 9 := by omega
  rcases h with h | h | h | h | h | h | h | h | h | h <;> simp [digitChar, h]

theorem digitChar_isDigit (n : Nat) : (digitChar n).isDigit = true := by
  have h10 : n % 10 < 10 := Nat.mod_lt _ (by omega)
  have h : n % 10 = 0 ∨ n % 10 = 1 ∨ n % 10 = 2 ∨ n % 10 = 3 ∨ n % 10 = 4 ∨
      n % 10 = 5 ∨ n % 10 = 6 ∨ n % 10 = 7 ∨ n % 10 = 8 ∨ n % 10 = 9 := by omega
  rcases h with h | h | h | h | h | h | h | h | h | h <;> simp [digitChar, h]

theorem parseDec_append (l : List Char) (c : Char) :
    parseDec (l ++ [c]) = 10 * parseDec l + (c.toNat - 48) := by
  unfold parseDec
  rw [List.foldl_append]
  rfl

theorem parseDec_natDigits : ∀ fuel n, n < 10 ^ fuel → parseDec (natDigits fuel n) = n := by
  intro fuel
  induction fuel with
  | zero =>
    intro n h
    have : n = 0 := by simpa using h
    subst this
    rfl
  | succ f ih =>
    intro n h
    by_cases h10 : n < 10
    · have : parseDec [digitChar n] = (digitChar n).toNat - 48 := by
        unfold parseDec
        simp
      simp only [natDigits, if_pos h10]
      rw [this, digitChar_toNat]
      omega
    · have hdiv : n / 10 < 10 ^ f := by
        rw [Nat.div_lt_iff_lt_mul (by omega : (0:Nat) < 10)]
        have : (10:Nat) ^ (f + 1) = 10 ^ f * 10 := pow_succ 10 f
        omega
      simp only [natDigits, if_neg h10]
      rw [parseDec_append, ih _ hdiv, digitChar_toNat]
      omega

theorem natRepr_roundtrip (n : Nat) : parseDec (natRepr n) = n := by
  apply parseDec_natDigits
  calc n < 2 ^ n := Nat.lt_two_pow n
    _ ≤ 10 ^ n := Nat.pow_le_pow_left (by omega) n
    _ ≤ 10 ^ (n + 1) := Nat.pow_le_pow_right (by omega) (by omega)

theorem natRepr_inj : Function.Injective natRepr := by
  intro a b h
  have ha := natRepr_roundtrip a
  have hb := natRepr_roundtrip b
  rw [h] at ha
  omega

theorem natDigits_all_digit : ∀ fuel n d, d ∈ natDigits fuel n → d.isDigit = true := by
  intro fuel
  induction fuel with
  | zero => intro n d h; simp [natDigits] at h
  | succ f ih =>
    intro n d h
    by_cases h10 : n < 10
    · simp only [natDigits, if_pos h10, List.mem_singleton] at h
      subst h
      exact digitChar_isDigit n
    · simp only [natDigits, if_neg h10, List.mem_append, List.mem_singleton] at h
      rcases h with h | h
      · exact ih _ _ h
      · subst h
        exact digitChar_isDigit _

theorem suffixName_inj (base : List Char) {j k : Nat}
    (h : suffixName base j = suffixName base k) : j = k := by
  unfold suffixName at h
  have h2 := List.append_cancel_left h
  have h3 : natRepr j = natRepr k := by injection h2
  exact natRepr_inj h3

theorem findCtr_free (base : List Char) :
    ∀ n (seen : Finset (List Char)), seen.card ≤ n → ∀ k,
      suffixName base (findCtr base seen k) ∉ seen ∧
      k ≤ findCtr base seen k ∧
      ∀ j, k ≤ j → j < findCtr base seen k → suffixName base j ∈ seen := by
  intro n
  induction n with
  | zero =>
    intro seen hcard k
    have hempty : seen = ∅ := Finset.card_eq_zero.mp (Nat.le_zero.mp hcard)
    subst hempty
    have heq : findCtr base ∅ k = k := by
      rw [findCtr]
      simp
    rw [heq]
    exact ⟨by simp, le_refl k, fun j h1 h2 => by omega⟩
  | succ m ih =>
    intro seen hcard k
    by_cases hmem : suffixName base k ∈ seen
    · have heq : findCtr base seen k = findCtr base (seen.erase (suffixName base k)) (k + 1) := by
        rw [findCtr]
        rw [dif_pos hmem]
      have hcard' : (seen.erase (suffixName base k)).card ≤ m := by
        have := Finset.card_erase_of_mem hmem
        have hpos : 0 < seen.card := Finset.card_pos.mpr ⟨_, hmem⟩
        omega
      obtain ⟨h1, h2, h3⟩ := ih (seen.erase (suffixName base k)) hcard' (k + 1)
      rw [heq]
      refine ⟨?_, by omega, ?_⟩
      · intro hin
        have hne : suffixName base (findCtr base (seen.erase (suffixName base k)) (k + 1)) ≠
            suffixName base k := by
          intro he
          have := suffixName_inj base he
          omega
        exact h1 (Finset.mem_erase.mpr ⟨hne, hin⟩)
      · intro j hkj hjlt
        rcases Nat.eq_or_lt_of_le hkj with rfl | hlt
        · exact hmem
        · exact (Finset.mem_erase.mp (h3 j (by omega) hjlt)).2
    · have heq : findCtr base seen k = k := by
        rw [findCtr]
        rw [dif_neg hmem]
      rw [heq]
      exact ⟨hmem, le_refl k, fun j h1 h2 => by omega⟩

/-! ### Shape of the sanitized base id and of generated ids -/

theorem mem_collapseHyphens : ∀ (l : List Char) (c : Char), c ∈ collapseHyphens l → c ∈ l := by
  intro l
  induction l with
  | nil => simp [collapseHyphens]
  | cons a rest ih =>
    cases rest with
    | nil => simp [collapseHyphens]
    | cons b rest2 =>
      intro c hc
      rw [collapseHyphens] at hc
      split at hc
      · exact List.mem_cons_of_mem a (ih c hc)
      · rcases List.mem_cons.mp hc with rfl | hmem
        · exact List.mem_cons_self _ _
        · exact List.mem_cons_of_mem a (ih c hmem)

theorem mem_dropTrailingHyphens : ∀ (l : List Char) (c : Char),
    c ∈ dropTrailingHyphens l → c ∈ l := by
  intro l
  induction l with
  | nil => simp [dropTrailingHyphens]
  | cons a rest ih =>
    intro c hc
    rw [dropTrailingHyphens] at hc
    split at hc
    · simp at hc
    · rcases List.mem_cons.mp hc with rfl | hmem
      · exact List.mem_cons_self _ _
      · exact List.mem_cons_of_mem a (ih c hmem)

theorem head_dropTrailingHyphens : ∀ (l : List Char) (c : Char) (cs : List Char),
    dropTrailingHyphens l = c :: cs → ∃ rest, l = c :: rest := by
  intro l c cs h
  cases l with
  | nil => simp [dropTrailingHyphens] at h
  | cons a rest =>
    rw [dropTrailingHyphens] at h
    split at h
    · exact absurd h (by simp)
    · exact ⟨rest, by injection h with h1 _; rw [h1]⟩

theorem dropWhile_head_not (p : Char → Bool) :
    ∀ (l : List Char) (c : Char) (cs : List Char),
      l.dropWhile p = c :: cs → p c = false := by
  intro l
  induction l with
  | nil => intro c cs h; simp [List.dropWhile] at h
  | cons a rest ih =>
    intro c cs h
    rw [List.dropWhile] at h
    split at h
    · exact ih c cs h
    · injection h with h1 _
      subst h1
      simp_all

theorem sanitizeBase_shape (text : List Char) :
    ∃ c cs, sanitizeBase text = c :: cs ∧ keptChar c = true ∧ c ≠ '-' ∧
      ∀ d ∈ cs, keptChar d = true := by
  have hdef : sanitizeBase text =
      (if (stripHyphens (collapseHyphens
          (((text.map Char.toLower).map (fun c => if c = ' ' then '-' else c)).filter keptChar))).isEmpty
        then "heading".data
        else stripHyphens (collapseHyphens
          (((text.map Char.toLower).map (fun c => if c = ' ' then '-' else c)).filter keptChar))) := rfl
  set kept := ((text.map Char.toLower).map (fun c => if c = ' ' then '-' else c)).filter keptChar
    with hkept
  by_cases h : (stripHyphens (collapseHyphens kept)).isEmpty
  · rw [hdef, if_pos h]
    exact ⟨'h', "eading".data, rfl, by decide, by decide, by decide⟩
  · rw [hdef, if_neg h]
    obtain ⟨c, cs, hcons⟩ : ∃ c cs, stripHyphens (collapseHyphens kept) = c :: cs := by
      cases hx : stripHyphens (collapseHyphens kept) with
      | nil => rw [hx] at h; simp at h
      | cons c cs => exact ⟨c, cs, rfl⟩
    have hmem : ∀ d ∈ stripHyphens (collapseHyphens kept), keptChar d = true := by
      intro d hd
      unfold stripHyphens at hd
      have h1 := mem_dropTrailingHyphens _ _ hd
      have h2 := (List.dropWhile_sublist (fun c => c = '-')).mem h1
      have h3 := mem_collapseHyphens _ _ h2
      exact (List.mem_filter.mp h3).2
    have hne : c ≠ '-' := by
      unfold stripHyphens at hcons
      obtain ⟨rest, hrest⟩ := head_dropTrailingHyphens _ _ _ hcons
      have := dropWhile_head_not (fun c => c = '-') _ _ _ hrest
      simpa using this
    refine ⟨c, cs, hcons, hmem c (by rw [hcons]; exact List.mem_cons_self _ _), hne, ?_⟩
    intro d hd
    exact hmem d (by rw [hcons]; exact List.mem_cons_of_mem c hd)

theorem keptChar_cases {c : Char} (h : keptChar c = true) :
    c.isLower = true ∨ c.isDigit = true ∨ c = '-' := by
  have h2 : (c.isLower = true ∨ c.isDigit = true) ∨ c = '-' := by simpa [keptChar] using h
  tauto

theorem isLower_isAlpha {c : Char} (h : c.isLower = true) : c.isAlpha = true := by
  simp [Char.isAlpha, h]

theorem keptChar_word {c : Char} (h : keptChar c = true) :
    (wordChar c || c = '-') = true := by
  rcases keptChar_cases h with h' | h' | h'
  · simp [wordChar, isLower_isAlpha h']
  · simp [wordChar, h']
  · simp [h']

theorem matchesAnchorPattern_sanitizeBase (text : List Char) :
    matchesAnchorPattern (sanitizeBase text) = true := by
  obtain ⟨c, cs, hcons, hkc, hne, hall⟩ := sanitizeBase_shape text
  rw [hcons]
  rw [matchesAnchorPattern]
  have hhead : (c.isAlpha || c.isDigit) = true := by
    rcases keptChar_cases hkc with h' | h' | h'
    · simp [isLower_isAlpha h']
    · simp [h']
    · exact absurd h' hne
  rw [hhead, Bool.true_and, List.all_eq_true]
  intro d hd
  exact keptChar_word (hall d hd)

theorem matchesAnchorPattern_suffixName {base : List Char}
    (h : matchesAnchorPattern base = true) (k : Nat) :
    matchesAnchorPattern (suffixName base k) = true := by
  cases base with
  | nil => simp [matchesAnchorPattern] at h
  | cons c cs =>
    rw [matchesAnchorPattern] at h
    obtain ⟨hhead, htail⟩ := Bool.and_eq_true_iff.mp h
    show matchesAnchorPattern (c :: (cs ++ '-' :: natRepr k)) = true
    rw [matchesAnchorPattern, hhead, Bool.true_and, List.all_eq_true]
    intro d hd
    rcases List.mem_append.mp hd with hmem | hmem
    · exact (List.all_eq_true.mp htail) d hmem
    · rcases List.mem_cons.mp hmem with rfl | hmem2
      · simp
      · have hdig := natDigits_all_digit _ _ _ hmem2
        simp [wordChar, hdig]

theorem generate_result_pattern (text : List Char) (seen : Finset (List Char)) :
    matchesAnchorPattern (generate_anchor_id text seen).1 = true := by
  simp only [generate_anchor_id]
  split
  · exact matchesAnchorPattern_suffixName (matchesAnchorPattern_sanitizeBase text) _
  · exact matchesAnchorPattern_sanitizeBase text

theorem generate_not_mem (text : List Char) (seen : Finset (List Char)) :
    (generate_anchor_id text seen).1 ∉ seen := by
  simp only [generate_anchor_id]
  split
  · exact (findCtr_free (sanitizeBase text) seen.card seen (le_refl _) 2).1
  · assumption

theorem generate_snd (text : List Char) (seen : Finset (List Char)) :
    (generate_anchor_id text seen).2 = insert (generate_anchor_id text seen).1 seen := by
  simp only [generate_anchor_id]
  split <;> rfl

theorem anchorDecision_snd (attrs text : List Char) (seen : Finset (List Char)) :
    (anchorDecision attrs text seen).2 = insert (anchorDecision attrs text seen).1 seen := by
  simp only [anchorDecision]
  split
  · rfl
  · exact generate_snd text seen

theorem matchesAnchorPattern_ne_nil {l : List Char} (h : matchesAnchorPattern l = true) :
    l ≠ [] := by
  intro he
  subst he
  simp [matchesAnchorPattern] at h

/-! ### Safety of TOC anchor characters -/

theorem alnum_safe {c : Char} (h : (c.isAlpha || c.isDigit) = true) : tocSafeChar c = true := by
  by_contra hfalse
  have hbad : tocSafeChar c = false := by simpa using hfalse
  have hc : c = ' ' ∨ c = '\t' ∨ c = '\n' ∨ c = '\x0d' ∨ c = '\x0b' ∨ c = '\x0c' ∨
      c = '<' ∨ c = '>' ∨ c = '&' ∨ c = '"' ∨ c = Char.ofNat 39 := by
    by_contra hnone
    push_neg at hnone
    obtain ⟨n1, n2, n3, n4, n5, n6, n7, n8, n9, n10, n11⟩ := hnone
    simp only [tocSafeChar, pySpace] at hbad
    simp [n1, n2, n3, n4, n5, n6, n7, n8, n9, n10, n11] at hbad
  rcases hc with rfl | rfl | rfl | rfl | rfl | rfl | rfl | rfl | rfl | rfl | rfl <;>
    exact absurd h (by decide)

theorem wordChar_safe {c : Char} (h : wordChar c = true) : tocSafeChar c = true := by
  have h2 : (c.isAlpha = true ∨ c.isDigit = true) ∨ c = '_' := by simpa [wordChar] using h
  rcases h2 with (h2 | h2) | h2
  · exact alnum_safe (by simp [h2])
  · exact alnum_safe (by simp [h2])
  · subst h2
    decide

theorem matchesIdPattern_props {l : List Char} (h : matchesIdPattern l = true) :
    l ≠ [] ∧ ∀ c ∈ l, tocSafeChar c = true := by
  cases l with
  | nil => simp [matchesIdPattern] at h
  | cons c cs =>
    rw [matchesIdPattern] at h
    obtain ⟨hhead, htail⟩ := Bool.and_eq_true_iff.mp h
    refine ⟨by simp, ?_⟩
    intro d hd
    rcases List.mem_cons.mp hd with rfl | hmem
    · exact alnum_safe (by simp [hhead])
    · rcases Bool.or_eq_true_iff.mp ((List.all_eq_true.mp htail) d hmem) with h2 | h2
      · exact wordChar_safe h2
      · have : d = '-' := by simpa using h2
        subst this
        decide

theorem matchesAnchorPattern_props {l : List Char} (h : matchesAnchorPattern l = true) :
    l ≠ [] ∧ ∀ c ∈ l, tocSafeChar c = true := by
  cases l with
  | nil => simp [matchesAnchorPattern] at h
  | cons c cs =>
    rw [matchesAnchorPattern] at h
    obtain ⟨hhead, htail⟩ := Bool.and_eq_true_iff.mp h
    refine ⟨by simp, ?_⟩
    intro d hd
    rcases List.mem_cons.mp hd with rfl | hmem
    · exact alnum_safe hhead
    · rcases Bool.or_eq_true_iff.mp ((List.all_eq_true.mp htail) d hmem) with h2 | h2
      · exact wordChar_safe h2
      · have : d = '-' := by simpa using h2
        subst this
        decide

/-! ### The branch structure of `anchorDecision` and the extraction loop -/

theorem anchorDecision_true {attrs : List Char} (text : List Char)
    (seen : Finset (List Char))
    (h : (!(trimmedId attrs).isEmpty && matchesIdPattern (trimmedId attrs)) = true) :
    anchorDecision attrs text seen = (trimmedId attrs, insert (trimmedId attrs) seen) := by
  simp only [anchorDecision]
  rw [if_pos h]

theorem anchorDecision_false {attrs : List Char} (text : List Char)
    (seen : Finset (List Char))
    (h : (!(trimmedId attrs).isEmpty && matchesIdPattern (trimmedId attrs)) = false) :
    anchorDecision attrs text seen = generate_anchor_id text seen := by
  simp only [anchorDecision]
  rw [if_neg (by simp [h])]

theorem anchorDecision_pattern (attrs text : List Char) (seen : Finset (List Char)) :
    matchesIdPattern (anchorDecision attrs text seen).1 = true ∨
    matchesAnchorPattern (anchorDecision attrs text seen).1 = true := by
  by_cases h : (!(trimmedId attrs).isEmpty && matchesIdPattern (trimmedId attrs)) = true
  · rw [anchorDecision_true text seen h]
    exact Or.inl (Bool.and_eq_true_iff.mp h).2
  · rw [anchorDecision_false text seen (by simpa using h)]
    exact Or.inr (generate_result_pattern text seen)

theorem anchorDecision_gen_not_mem {attrs : List Char} (text : List Char)
    (seen : Finset (List Char))
    (h : (!(trimmedId attrs).isEmpty && matchesIdPattern (trimmedId attrs)) = false) :
    (anchorDecision attrs text seen).1 ∉ seen := by
  rw [anchorDecision_false text seen h]
  exact generate_not_mem text seen

theorem extractLoop_anchor (f : Nat) : ∀ (cs : List Char) (seen : Finset (List Char))
    (r : HeaderRec), r ∈ extractLoop f cs seen →
    matchesIdPattern r.anchor_id = true ∨ matchesAnchorPattern r.anchor_id = true := by
  induction f with
  | zero => intro cs seen r h; simp [extractLoop] at h
  | succ f ih =>
    intro cs seen r h
    cases cs with
    | nil => simp [extractLoop] at h
    | cons a rest =>
      rw [extractLoop] at h
      cases hm : matchHeaderAt (a :: rest) with
      | none =>
        rw [hm] at h
        exact ih _ _ _ h
      | some m =>
        rw [hm] at h
        dsimp only at h
        by_cases hte : (htmlUnescape (pyStrip (stripTags m.content))).isEmpty
        · rw [if_pos hte] at h
          exact ih _ _ _ h
        · rw [if_neg hte] at h
          rcases List.mem_cons.mp h with rfl | hmem
          · exact anchorDecision_pattern _ _ _
          · exact ih _ _ _ hmem

theorem extractLoopA_fst (f : Nat) : ∀ (cs : List Char) (seen : Finset (List Char)),
    extractLoop f cs seen = (extractLoopA f cs seen).map Prod.fst := by
  induction f with
  | zero => intro cs seen; simp [extractLoop, extractLoopA]
  | succ f ih =>
    intro cs seen
    cases cs with
    | nil => simp [extractLoop, extractLoopA]
    | cons a rest =>
      rw [extractLoop, extractLoopA]
      cases hm : matchHeaderAt (a :: rest) with
      | none =>
        exact ih _ _
      | some m =>
        dsimp only
        by_cases hte : (htmlUnescape (pyStrip (stripTags m.content))).isEmpty
        · rw [if_pos hte, if_pos hte]
          exact ih _ _
        · rw [if_neg hte, if_neg hte]
          simp [ih]

theorem extractLoopA_fresh (f : Nat) : ∀ (cs : List Char) (seen : Finset (List Char)),
    (∀ p ∈ extractLoopA f cs seen, p.2 = false → p.1.anchor_id ∉ seen) ∧
    List.Pairwise (fun a b : HeaderRec × Bool => b.2 = false → a.1.anchor_id ≠ b.1.anchor_id)
      (extractLoopA f cs seen) := by
  induction f with
  | zero => intro cs seen; simp [extractLoopA]
  | succ f ih =>
    intro cs seen
    cases cs with
    | nil => simp [extractLoopA]
    | cons a rest =>
      rw [extractLoopA]
      cases hm : matchHeaderAt (a :: rest) with
      | none =>
        exact ih _ _
      | some m =>
        dsimp only
        by_cases hte : (htmlUnescape (pyStrip (stripTags m.content))).isEmpty
        · rw [if_pos hte]
          exact ih _ _
        · rw [if_neg hte]
          have hsnd := anchorDecision_snd m.attrs (htmlUnescape (pyStrip (stripTags m.content))) seen
          obtain ⟨ih1, ih2⟩ := ih m.rest
            (insert (anchorDecision m.attrs (htmlUnescape (pyStrip (stripTags m.content))) seen).1 seen)
          rw [hsnd]
          constructor
          · intro q hq hq2
            rcases List.mem_cons.mp hq with rfl | hmem
            · exact anchorDecision_gen_not_mem _ _ (by simpa using hq2)
            · intro hin
              exact ih1 q hmem hq2 (Finset.mem_insert_of_mem hin)
          · refine List.Pairwise.cons ?_ ih2
            intro q hq hq2 heq
            exact ih1 q hq hq2 (heq ▸ Finset.mem_insert_self _ _)

/-! ### Claim theorems: anchor ids and heading extraction -/

/-- C2 counterexample: for the heading text `"1"` and an empty seen set,
`generate_anchor_id` returns `"1"`, which does not match the claimed pattern
`^[a-zA-Z][\w-]*$` (it does not begin with an ASCII letter). -/
theorem c2_counterexample :
    (generate_anchor_id "1".data ∅).1 = "1".data ∧
    matchesIdPattern (generate_anchor_id "1".data ∅).1 = false := by decide

/-- C2 (amended): for every heading text and every seen set, the string
returned by `generate_anchor_id` matches `^[a-zA-Z0-9][\w-]*$` — it is
non-empty and begins with an ASCII letter or digit (not necessarily a
letter). -/
theorem c2_generated_id_pattern (text : List Char) (seen : Finset (List Char)) :
    matchesAnchorPattern (generate_anchor_id text seen).1 = true :=
  generate_result_pattern text seen

/-- C4: `generate_anchor_id` returns the sanitized base id when it is not in
`seen`, and otherwise `base-k` for the smallest `k ≥ 2` free in `seen`; the
result is non-empty, was not in `seen` before the call, and is added to the
returned set; `generate_anchor_id("!!!", {})` is `"heading"`. -/
theorem c4_generate_anchor_id_spec (text : List Char) (seen : Finset (List Char)) :
    (sanitizeBase text ∉ seen → (generate_anchor_id text seen).1 = sanitizeBase text) ∧
    (sanitizeBase text ∈ seen → ∃ k, 2 ≤ k ∧
      (generate_anchor_id text seen).1 = suffixName (sanitizeBase text) k ∧
      suffixName (sanitizeBase text) k ∉ seen ∧
      ∀ j, 2 ≤ j → j < k → suffixName (sanitizeBase text) j ∈ seen) ∧
    (generate_anchor_id text seen).1 ≠ [] ∧
    (generate_anchor_id text seen).1 ∉ seen ∧
    (generate_anchor_id text seen).2 = insert (generate_anchor_id text seen).1 seen ∧
    (generate_anchor_id "!!!".data ∅).1 = "heading".data := by
  refine ⟨?_, ?_, matchesAnchorPattern_ne_nil (generate_result_pattern text seen),
    generate_not_mem text seen, generate_snd text seen, by decide⟩
  · intro h
    simp only [generate_anchor_id]
    rw [if_neg h]
  · intro h
    obtain ⟨h1, h2, h3⟩ := findCtr_free (sanitizeBase text) seen.card seen (le_refl _) 2
    refine ⟨findCtr (sanitizeBase text) seen 2, h2, ?_, h1, h3⟩
    simp only [generate_anchor_id]
    rw [if_pos h]

/-- C4 witness: at the heading text `"Hello World"` and an empty seen set the
characterization yields the id `"hello-world"`. -/
theorem c4_witness : (generate_anchor_id "Hello World".data ∅).1 = "hello-world".data := by
  have h := (c4_generate_anchor_id_spec "Hello World".data ∅).1 (by decide)
  rw [h]
  decide

/-- C5: an explicit id whose trimmed value matches `^[a-zA-Z][\w-]*$` is kept
verbatim and registered in the shared seen set; a missing, malformed or
whitespace-containing id leads to a generated id instead.  Concretely,
`id="123bad"` is replaced by the generated `hello` while `id="my-id"` is kept. -/
theorem c5_explicit_id_policy :
    (∀ (attrs text : List Char) (seen : Finset (List Char)),
      (matchesIdPattern (trimmedId attrs) = true →
        anchorDecision attrs text seen = (trimmedId attrs, insert (trimmedId attrs) seen)) ∧
      (matchesIdPattern (trimmedId attrs) = false →
        anchorDecision attrs text seen = generate_anchor_id text seen)) ∧
    (extract_headers "<h1 id=\"123bad\">Hello</h1>").map (fun r => r.anchor_id) =
      ["hello".data] ∧
    (extract_headers "<h1 id=\"my-id\">Hello</h1>").map (fun r => r.anchor_id) =
      ["my-id".data] := by
  refine ⟨?_, by decide, by decide⟩
  intro attrs text seen
  constructor
  · intro h
    have hne : (trimmedId attrs).isEmpty = false := by
      cases hx : trimmedId attrs with
      | nil => rw [hx] at h; simp [matchesIdPattern] at h
      | cons c cs => simp
    exact anchorDecision_true text seen (by simp [hne, h])
  · intro h
    exact anchorDecision_false text seen (by simp [h])

/-- C5 witness: with the attribute text ` id="my-id"` the explicit id is kept
verbatim and registered. -/
theorem c5_witness :
    anchorDecision " id=\"my-id\"".data "Hello".data ∅ =
      ("my-id".data, insert "my-id".data ∅) := by
  have h := (c5_explicit_id_policy.1 " id=\"my-id\"".data "Hello".data ∅).1 (by decide)
  rw [h]
  decide

/-- C6: `extract_headers` returns h1/h2 records in document order, interleaved
across levels: `<h1>A</h1><h2>B</h2><h1>C</h1>` yields A (level 1), B
(level 2), C (level 1) in that order. -/
theorem c6_document_order :
    extract_headers "<h1>A</h1><h2>B</h2><h1>C</h1>" =
      [⟨"A".data, 1, "a".data⟩, ⟨"B".data, 2, "b".data⟩, ⟨"C".data, 1, "c".data⟩] := by
  decide

/-- C1 counterexample: two headings carrying the same valid explicit id
`"foo"` are both accepted verbatim, so one extraction call returns two records
with the same `anchor_id` — the anchor ids are not pairwise distinct. -/
theorem c1_counterexample :
    (extract_headers "<h1 id=\"foo\">A</h1><h2 id=\"foo\">B</h2>").map
        (fun r => r.anchor_id) = ["foo".data, "foo".data] ∧
    ¬ ((extract_headers "<h1 id=\"foo\">A</h1><h2 id=\"foo\">B</h2>").map
        (fun r => r.anchor_id)).Nodup := by
  decide

/-- C1 (amended): within one extraction call, a freshly generated anchor id
never equals any earlier record's anchor id (generated ids are fresh with
respect to every id registered so far); only a record whose explicit id was
accepted verbatim can repeat an earlier anchor id.  `extractHeadersA` is
`extract_headers` instrumented with a flag telling whether the explicit-id
branch was taken. -/
theorem c1_generated_ids_fresh :
    (∀ s : String, extract_headers s = (extractHeadersA s).map Prod.fst) ∧
    ∀ s : String,
      List.Pairwise (fun a b : HeaderRec × Bool => b.2 = false → a.1.anchor_id ≠ b.1.anchor_id)
        (extractHeadersA s) := by
  constructor
  · intro s
    exact extractLoopA_fst _ _ _
  · intro s
    exact (extractLoopA_fresh _ _ _).2

/-- C1 witness: the instrumented extraction agrees with `extract_headers` on a
concrete document. -/
theorem c1_witness :
    extract_headers "<h1>A</h1><h1>A</h1>" =
      (extractHeadersA "<h1>A</h1><h1>A</h1>").map Prod.fst :=
  c1_generated_ids_fresh.1 "<h1>A</h1><h1>A</h1>"

/-- C10: every record returned by `extract_headers` has a non-empty anchor id
containing no whitespace and none of `<`, `>`, `&`, the double quote or the
single quote, whether the id was accepted verbatim or freshly generated, so
interpolating it into the `href="#..."` attribute of `generate_toc_html`
cannot break out of the attribute. -/
theorem c10_anchor_ids_safe (s : String) (r : HeaderRec) (h : r ∈ extract_headers s) :
    r.anchor_id ≠ [] ∧ ∀ c ∈ r.anchor_id, tocSafeChar c = true := by
  rcases extractLoop_anchor _ _ _ _ h with hp | hp
  · exact matchesIdPattern_props hp
  · exact matchesAnchorPattern_props hp

/-- C10 witness: the record extracted from `<h1>Hi</h1>` has a non-empty,
safe anchor id. -/
theorem c10_witness :
    (⟨"Hi".data, 1, "hi".data⟩ : HeaderRec).anchor_id ≠ [] ∧
    ∀ c ∈ (⟨"Hi".data, 1, "hi".data⟩ : HeaderRec).anchor_id, tocSafeChar c = true :=
  c10_anchor_ids_safe "<h1>Hi</h1>" ⟨"Hi".data, 1, "hi".data⟩ (by decide)

/-! ### Page-number CSS claims -/

theorem contentPartsAux_eq_specPriorityAux :
    ∀ f rem, contentPartsAux f rem = specPriorityAux f rem := by
  intro f
  induction f with
  | zero => intro rem; rfl
  | succ f ih =>
    intro rem
    rw [contentPartsAux, specPriorityAux]
    by_cases hre : rem.isEmpty
    · simp [hre]
    · simp only [if_neg hre]
      cases hp : findSub pagePat rem with
      | some i => simp [splitFirst, hp, containsSub, ih]
      | none =>
        cases hq : findSub pagesPat rem with
        | some i => simp [splitFirst, hp, hq, containsSub, ih]
        | none => simp [splitFirst, hp, hq, containsSub]

/-- C3 counterexample: on the format `"{pages}!{page}"` the implemented scan
differs from the claimed leftmost-wins scan — the leading `{pages}` is not
turned into a total-pages counter but swallowed into the quoted literal,
because the code checks for `{page}` anywhere in the remainder first. -/
theorem c3_counterexample :
    contentParts "{pages}!{page}".data ≠ specLeftmostParts "{pages}!{page}".data ∧
    contentParts "{pages}!{page}".data =
      [quotedLiteral "{pages}!".data, "counter(page)".data] ∧
    specLeftmostParts "{pages}!{page}".data =
      ["counter(pages)".data, quotedLiteral "!".data, "counter(page)".data] := by
  decide

/-- C3 (amended): `get_page_number_css` returns the empty string when page
numbering is disabled; when enabled, the format is scanned with `{page}` given
priority over `{pages}` (if `{page}` occurs anywhere in the remaining text the
text is split at its first occurrence, even when a `{pages}` occurs earlier;
only otherwise is the text split at the first `{pages}`), literal segments are
emitted as escaped double-quoted tokens and placeholders as counter
references; `"{page}/{pages}"` yields a page counter, the literal `/` and a
total-pages counter in that order. -/
theorem c3_page_number_css :
    (∀ cfg : Config, cfg.enable_page_numbers = false → get_page_number_css cfg = .ok "") ∧
    (∀ fmt : List Char, contentParts fmt = specPriorityParts fmt) ∧
    joinParts (contentParts "{page}/{pages}".data) =
      "counter(page) \"/\" counter(pages)".data ∧
    (∀ cfg : Config, cfg.enable_page_numbers = true →
      cfg.page_number_position = "center" →
      get_page_number_css cfg =
        .ok (cssBlock "@bottom-center" (joinParts (contentParts cfg.page_number_format.data)))) := by
  refine ⟨?_, ?_, by decide, ?_⟩
  · intro cfg h
    simp [get_page_number_css, h]
  · intro fmt
    exact contentPartsAux_eq_specPriorityAux _ _
  · intro cfg h1 h2
    have hpos : positionMap cfg.page_number_position = some "@bottom-center" := by
      rw [h2]
      decide
    simp [get_page_number_css, h1, hpos]

/-- C3 witness: with the default configuration (page numbers disabled) the
page-number CSS is empty. -/
theorem c3_witness : get_page_number_css {} = .ok "" :=
  c3_page_number_css.1 {} rfl

/-! ### Merge claims -/

theorem mapM_ok_forall₂ :
    ∀ (ps : List String) (g : String → Except MDError String) (bodies : List String),
      ps.mapM g = Except.ok bodies →
      List.Forall₂ (fun p b => g p = Except.ok b) ps bodies := by
  intro ps
  induction ps with
  | nil =>
    intro g bodies h
    rw [List.mapM_nil] at h
    have : bodies = [] := by
      cases bodies with
      | nil => rfl
      | cons b bs => simp [pure, Except.pure] at h
    subst this
    constructor
  | cons p rest ih =>
    intro g bodies h
    rw [List.mapM_cons] at h
    cases hgp : g p with
    | error e =>
      rw [hgp] at h
      simp [Bind.bind, Except.bind] at h
    | ok b =>
      rw [hgp] at h
      cases hrest : rest.mapM g with
      | error e =>
        rw [hrest] at h
        simp [Bind.bind, Except.bind] at h
      | ok bs =>
        rw [hrest] at h
        simp [Bind.bind, Except.bind, pure, Except.pure] at h
        subst h
        exact List.Forall₂.cons hgp (ih g bs hrest)

theorem intercalate_go_acc (s : String) : ∀ (l : List String) (acc1 acc2 : String),
    String.intercalate.go (acc1 ++ acc2) s l = acc1 ++ String.intercalate.go acc2 s l := by
  intro l
  induction l with
  | nil => intro a b; rw [String.intercalate.go, String.intercalate.go]
  | cons c rest ih =>
    intro a b
    rw [String.intercalate.go]
    conv_rhs => rw [String.intercalate.go]
    rw [String.append_assoc, String.append_assoc, ih, ← String.append_assoc]

theorem join_cons (x : String) (xs : List String) :
    String.join (x :: xs) = x ++ String.join xs := by
  have go : ∀ (l : List String) (a b : String),
      List.foldl (fun r s => r ++ s) (a ++ b) l = a ++ List.foldl (fun r s => r ++ s) b l := by
    intro l
    induction l with
    | nil => intro a b; rfl
    | cons c rest ih => intro a b; simp only [List.foldl, String.append_assoc, ih]
  show List.foldl (fun r s => r ++ s) ("" ++ x) xs = x ++ List.foldl (fun r s => r ++ s) "" xs
  rw [show ("" ++ x) = x ++ "" by simp, go xs x ""]

theorem intercalate_structure (s : String) : ∀ (l : List String) (a : String),
    String.intercalate s (a :: l) = a ++ String.join (l.map (fun b => s ++ b)) := by
  intro l
  induction l with
  | nil =>
    intro a
    show String.intercalate.go a s [] = _
    rw [String.intercalate.go]
    simp [String.join]
  | cons b rest ih =>
    intro a
    show String.intercalate.go a s (b :: rest) = _
    rw [String.intercalate.go]
    have h1 : String.intercalate.go (a ++ s ++ b) s rest =
        String.intercalate s ((a ++ s ++ b) :: rest) := rfl
    rw [h1, ih (a ++ s ++ b)]
    rw [List.map_cons, join_cons]
    simp [String.append_assoc]

/-- C7: `convert_merge` rejects an empty source list with an `InvalidMarkdown`
error; for a non-empty list whose files all read and convert, the combined
HTML is the per-file fragments in input-list order joined by the page-break
separator — structurally the first fragment followed by `separator ++ fragment`
for each of the remaining `N - 1` fragments, so exactly `N - 1` forced page
breaks, none before the first or after the last. -/
theorem c7_convert_merge :
    (∀ render fs, convert_merge render fs [] =
      .error (.invalidMarkdown "No markdown files provided for merging")) ∧
    (∀ render fs (ps bodies : List String), ps ≠ [] →
      ps.mapM (readRender render fs) = Except.ok bodies →
      convert_merge render fs ps = .ok (String.intercalate pageBreakSep bodies) ∧
      List.Forall₂ (fun p b => readRender render fs p = Except.ok b) ps bodies ∧
      bodies.length = ps.length) ∧
    (∀ (b : String) (l : List String),
      String.intercalate pageBreakSep (b :: l) =
        b ++ String.join (l.map (fun x => pageBreakSep ++ x)) ∧
      (l.map (fun x => pageBreakSep ++ x)).length = l.length) := by
  refine ⟨?_, ?_, ?_⟩
  · intro render fs
    rfl
  · intro render fs ps bodies hne hok
    have hf2 := mapM_ok_forall₂ ps (readRender render fs) bodies hok
    have hmerge : convert_merge render fs ps = .ok (String.intercalate pageBreakSep bodies) := by
      unfold convert_merge
      rw [if_neg (by simpa using hne)]
      rw [hok]
      rfl
    exact ⟨hmerge, hf2, hf2.length_eq.symm⟩
  · intro b l
    exact ⟨intercalate_structure pageBreakSep l b, List.length_map _ _⟩

/-- C7 witness: merging two readable sources yields the two fragments joined
by the page-break separator; in particular the hypotheses of the merge
characterization hold at a concrete input. -/
theorem c7_witness :
    convert_merge (fun c => Except.ok c) (fun _ => some "x") ["a", "b"] =
      .ok (String.intercalate pageBreakSep ["x", "x"]) :=
  (c7_convert_merge.2.1 (fun c => Except.ok c) (fun _ => some "x") ["a", "b"] ["x", "x"]
    (by decide) (by rfl)).1

/-! ### Image resolution claims -/

/-- C8: a relative image reference is resolved against the source file's own
directory — for an absolute source file the result does not depend on the
process working directory at all; when the checked target does not exist the
function fails with an `InvalidMarkdown` error whose message contains the
original reference text and the source file path; and `convert_file` re-raises
an `InvalidMarkdown` failure of the conversion pipeline unchanged. -/
theorem c8_image_resolution :
    (∀ (cwd cwd' : PurePath) (ex : PurePath → Bool) (sf : PurePath) (ref : String),
      sf.absolute = true →
      resolve_image_path cwd ex sf ref = resolve_image_path cwd' ex sf ref) ∧
    (∀ (cwd : PurePath) (sf : PurePath) (ref : String),
      (parsePath ref).absolute = false →
      imgTarget cwd sf ref = pathResolve cwd (pathJoin (pathParent sf) (parsePath ref))) ∧
    (∀ (cwd : PurePath) (ex : PurePath → Bool) (sf : PurePath) (ref : String),
      ex (imgTarget cwd sf ref) = false →
      ∃ m, resolve_image_path cwd ex sf ref = .error (.invalidMarkdown m) ∧
        (∃ u v, m = u ++ ref ++ v) ∧ (∃ u v, m = u ++ pathToString sf ++ v)) ∧
    (∀ (render : String → Except MDError String) (fs : String → Option String)
      (p content m : String), fs p = some content →
      render content = Except.error (.invalidMarkdown m) →
      convert_file render fs p = .error (.invalidMarkdown m)) := by
  refine ⟨?_, ?_, ?_, ?_⟩
  · intro cwd cwd' ex sf ref habs
    have htarget : imgTarget cwd sf ref = imgTarget cwd' sf ref := by
      unfold imgTarget
      by_cases h : (parsePath ref).absolute
      · simp [h]
      · simp [h, pathResolve, pathJoin, pathParent, habs]
    unfold resolve_image_path
    rw [htarget]
  · intro cwd sf ref h
    simp [imgTarget, h]
  · intro cwd ex sf ref hex
    refine ⟨"Image not found: " ++ ref ++ " (referenced in " ++ pathToString sf ++ ")",
      by simp [resolve_image_path, hex], ?_, ?_⟩
    · exact ⟨"Image not found: ", " (referenced in " ++ pathToString sf ++ ")",
        by simp [String.append_assoc]⟩
    · exact ⟨"Image not found: " ++ ref ++ " (referenced in ", ")",
        by simp [String.append_assoc]⟩
  · intro render fs p content m hfs hr
    simp [convert_file, hfs, hr]

/-- C8 witness: a pipeline failure tagged `InvalidMarkdown` (the missing-image
error) propagates out of `convert_file` unchanged at a concrete input. -/
theorem c8_witness :
    convert_file
      (fun _ => Except.error (.invalidMarkdown "Image not found: x.png (referenced in a.md)"))
      (fun _ => some "body") "a.md" =
      .error (.invalidMarkdown "Image not found: x.png (referenced in a.md)") :=
  c8_image_resolution.2.2.2 _ _ "a.md" "body" _ rfl rfl

/-! ### Batch conversion claims -/

theorem convertEntry_input (render : String → Except MDError String)
    (fs : String → Option String) (input_dir output_dir : String)
    (preserve : Bool) (x : String) :
    (convertEntry render fs input_dir output_dir preserve x).input = x := by
  simp only [convertEntry]
  split <;> rfl

theorem convertEntry_output (render : String → Except MDError String)
    (fs : String → Option String) (input_dir output_dir : String)
    (preserve : Bool) (x : String) :
    (convertEntry render fs input_dir output_dir preserve x).output =
      get_output_path x input_dir output_dir preserve := by
  simp only [convertEntry]
  split <;> rfl

/-- C9: `convert_directory` returns exactly one result record per Markdown
file discovered under the input directory, in lexicographically sorted order
(the discovered list is sorted and is a permutation of the `.md`-suffixed
entries); each record's flags reflect that file's own conversion outcome — a
failure is captured in the record (success `false`, error message set) and
every discovered file still gets its record, so the batch always completes. -/
theorem c9_convert_directory (render : String → Except MDError String)
    (fs : String → Option String) (input_dir output_dir : String)
    (preserve : Bool) (listing : List String) :
    (convert_directory render fs input_dir output_dir preserve listing).map
        (fun r => r.input) = find_markdown_files listing ∧
    (convert_directory render fs input_dir output_dir preserve listing).length =
      (find_markdown_files listing).length ∧
    List.Pairwise (fun a b : String => a ≤ b) (find_markdown_files listing) ∧
    (find_markdown_files listing).Perm
      (listing.filter (fun p => (lastComponent p).endsWith ".md")) ∧
    ∀ r ∈ convert_directory render fs input_dir output_dir preserve listing,
      r.output = get_output_path r.input input_dir output_dir preserve ∧
      ((∃ h, convert_file render fs r.input = .ok h) → r.success = true ∧ r.error = none) ∧
      (∀ e, convert_file render fs r.input = .error e →
        r.success = false ∧ r.error = some (errMessage e)) := by
  refine ⟨?_, ?_, ?_, ?_, ?_⟩
  · rw [convert_directory, List.map_map]
    have h : ((fun r : ConvResult => r.input) ∘
        convertEntry render fs input_dir output_dir preserve) = fun x => x := by
      funext x
      exact convertEntry_input render fs input_dir output_dir preserve x
    rw [h, List.map_id']
  · rw [convert_directory, List.length_map]
  · have hp := @List.sorted_mergeSort String (fun a b : String => decide (a ≤ b))
      (fun a b c h1 h2 => decide_eq_true
        (le_trans (of_decide_eq_true h1) (of_decide_eq_true h2)))
      (fun a b => by simpa [Bool.or_eq_true_iff, decide_eq_true_iff] using le_total a b)
      (listing.filter (fun p => (lastComponent p).endsWith ".md"))
    exact hp.imp (fun h => of_decide_eq_true h)
  · exact List.mergeSort_perm _ _
  · intro r hr
    rw [convert_directory] at hr
    obtain ⟨x, hx, rfl⟩ := List.mem_map.mp hr
    rw [convertEntry_input, convertEntry_output]
    refine ⟨rfl, ?_, ?_⟩
    · rintro ⟨h, hok⟩
      simp [convertEntry, hok]
    · intro e herr
      simp [convertEntry, herr]

/-- C9 witness: a two-file batch where one file fails still yields a record
for every discovered file, with the failure captured in its own record. -/
theorem c9_witness :
    (convert_directory
        (fun c => if c = "bad" then Except.error (.invalidMarkdown "boom") else Except.ok c)
        (fun p => if p = "f/bad.md" then some "bad" else some "ok")
        "f" "o" true ["f/bad.md", "f/a.md"]).map (fun r => r.input) =
      find_markdown_files ["f/bad.md", "f/a.md"] :=
  (c9_convert_directory
    (fun c => if c = "bad" then Except.error (.invalidMarkdown "boom") else Except.ok c)
    (fun p => if p = "f/bad.md" then some "bad" else some "ok")
    "f" "o" true ["f/bad.md", "f/a.md"]).1

end MD2PDF
